import Mathlib

/-!
Verification development for the LangGraph_from_Scratch agent scripts.

We shallowly embed the agent execution engine shared by the tool-using
variants (src/Agents/4_ReAct.py, src/Agents/6_RAG_Agent.py), the tool
dispatcher (take_action), the arithmetic tools (divide), the retrieve tool,
the interactive loops, and the drafting-variant routing predicate
(src/Agents/5_Drafter.py).  Messages are a tagged union, conversation state
is the ordered list of messages, and the state-merge reducer is list
concatenation, matching operator.add used as the messages reducer in
6_RAG_Agent.py.
-/

/-- A tool-call request as emitted by the model inside an assistant message:
an opaque correlation id, a tool name, and a string-keyed argument mapping
(6_RAG_Agent.py reads t[id], t[name], t[args]). -/
structure ToolCallRequest where
  id : String
  name : String
  args : List (String × String)
deriving DecidableEq, Repr

/-- Messages, the tagged union over System, User (Human), Assistant (AI) and
ToolResult (ToolMessage).  Only assistant messages carry tool-call requests;
a tool-result message carries the tool name and the correlation id
(ToolMessage(content=..., name=..., tool_call_id=...) in 6_RAG_Agent.py). -/
inductive Message where
  | system (content : String)
  | user (content : String)
  | assistant (content : String) (tool_calls : List ToolCallRequest)
  | toolResult (content : String) (name : String) (tool_call_id : String)
deriving DecidableEq, Repr

/-- The tool calls carried by a message: the tool_calls list of an assistant
message, and the empty list for every other role (matching the
hasattr(last_message, "tool_calls") guard of 6_RAG_Agent.py, which treats a
message without the attribute as having no pending tool calls). -/
def toolCallsOf : Message → List ToolCallRequest
  | .assistant _ tcs => tcs
  | _ => []

/-- The correlation id of a tool-result message, none for other roles. -/
def msgToolCallId : Message → Option String
  | .toolResult _ _ i => some i
  | _ => none

/-- The tool name recorded on a tool-result message, none for other roles. -/
def msgToolName : Message → Option String
  | .toolResult _ n _ => some n
  | _ => none

/-- The content string of a message. -/
def msgContent : Message → String
  | .system c => c
  | .user c => c
  | .assistant c _ => c
  | .toolResult c _ _ => c

/-- The generic graph executor.  A node is a state-transition function that
returns the newly produced messages; the engine merges them into the running
history with the state reducer, which is list concatenation (operator.add,
imported as add_messages in 6_RAG_Agent.py).  Routing consults the outgoing
edge of the node just run: none is the END marker, some picks the next node.
The reference scripts have no iteration guard, so the embedding uses fuel and
returns none when the fuel is exhausted (the engine did not return). -/
def runEngine {ν : Type} (node : ν → List Message → List Message)
    (route : ν → List Message → Option ν) :
    Nat → ν → List Message → Option (List Message)
  | 0, _, _ => none
  | fuel + 1, n, msgs =>
    let msgs2 := msgs ++ node n msgs
    match route n msgs2 with
    | none => some msgs2
    | some n2 => runEngine node route fuel n2 msgs2

/-- should_continue of 6_RAG_Agent.py: look at the last message of the state
and continue exactly when it carries at least one tool call
(hasattr(last_message, "tool_calls") and len(last_message.tool_calls) > 0). -/
def should_continue (msgs : List Message) : Bool :=
  match msgs.getLast? with
  | some last_message => decide ((toolCallsOf last_message).length > 0)
  | none => false

/-- A tool registry: a name-to-implementation mapping; every tool of the
reference scripts consumes string arguments and returns a string result
(tools_dict in 6_RAG_Agent.py). -/
def Registry : Type := List (String × (String → String))

/-- Look a tool up by name in the registry (tools_dict[name]). -/
def lookupTool (reg : Registry) (name : String) : Option (String → String) :=
  (List.find? (fun p => p.1 == name) reg).map (fun p => p.2)

/-- args.get("query", dflt) of 6_RAG_Agent.py: the value bound to a key in
the argument mapping, or the default. -/
def getArg (args : List (String × String)) (key dflt : String) : String :=
  match List.find? (fun p => p.1 == key) args with
  | some p => p.2
  | none => dflt

/-- The invalid-tool notice of take_action in 6_RAG_Agent.py. -/
def invalid_tool_msg : String :=
  "Incorrect tool name, Please retry and select a valid tool from list of available tools."

/-- One round of the dispatcher body of take_action for a single request:
unknown name yields the invalid-tool notice, a known name invokes the tool on
args.get("query", ""); either way the result is wrapped in a ToolMessage
carrying the request's name and correlation id. -/
def dispatchOne (reg : Registry) (t : ToolCallRequest) : Message :=
  let result :=
    match lookupTool reg t.name with
    | none => invalid_tool_msg
    | some f => f (getArg t.args "query" "")
  Message.toolResult result t.name t.id

/-- The dispatcher loop of take_action over an ordered request sequence: one
ToolMessage per request, in request order. -/
def take_action_results (reg : Registry) (tcs : List ToolCallRequest) : List Message :=
  tcs.map (dispatchOne reg)

/-- take_action of 6_RAG_Agent.py as a node: it reads the tool calls of the
last message of the state and returns the list of tool-result messages. -/
def take_action (reg : Registry) (msgs : List Message) : List Message :=
  take_action_results reg ((msgs.getLast?.map toolCallsOf).getD [])

/-- The two non-terminal nodes of the RAG graph (6_RAG_Agent.py):
the llm node (call_llm) and the retriever_agent node (take_action). -/
inductive RagNode where
  | llm
  | retriever_agent
deriving DecidableEq, Repr

/-- The node transition functions of the RAG graph: the llm node appends the
model's one response (call_llm returns [message]); the retriever_agent node
appends the dispatched tool results.  The model service is an opaque
parameter, as in the spec's external-interface section. -/
def ragNodeFn (model : List Message → Message) (reg : Registry) :
    RagNode → List Message → List Message
  | .llm, msgs => [model msgs]
  | .retriever_agent, msgs => take_action reg msgs

/-- The edges of the RAG graph: the conditional edge out of llm routes on
should_continue (True to retriever_agent, False to END), and the
unconditional edge retriever_agent -> llm. -/
def ragRoute : RagNode → List Message → Option RagNode
  | .llm, msgs => if should_continue msgs then some .retriever_agent else none
  | .retriever_agent, _ => some .llm

/-- C1: for every execution of the engine (any node set, any routing, any
fuel) that returns, the final message sequence extends the initial one: the
initial messages are an unchanged prefix, so the count never decreases and no
message is removed by the concatenation reducer. -/
theorem engine_append_only {ν : Type} (node : ν → List Message → List Message)
    (route : ν → List Message → Option ν) (fuel : Nat) (n : ν)
    (msgs out : List Message)
    (h : runEngine node route fuel n msgs = some out) :
    (∃ tail, out = msgs ++ tail) ∧ msgs.length ≤ out.length := by
  induction fuel generalizing n msgs with
  | zero => simp [runEngine] at h
  | succ fuel ih =>
    rw [runEngine] at h
    rcases hr : route n (msgs ++ node n msgs) with _ | n2
    · rw [hr] at h
      simp only [Option.some.injEq] at h
      subst h
      exact ⟨⟨node n msgs, rfl⟩, by simp⟩
    · rw [hr] at h
      obtain ⟨⟨tail, htail⟩, hlen⟩ := ih n2 (msgs ++ node n msgs) h
      refine ⟨⟨node n msgs ++ tail, by simp [htail]⟩, ?_⟩
      calc msgs.length ≤ (msgs ++ node n msgs).length := by simp
        _ ≤ out.length := hlen

/-- Witness for C1: a concrete run of the RAG graph with a model fixture that
answers without tool calls, starting from one user message. -/
theorem engine_append_only_witness :
    (∃ tail, [Message.user "hi", Message.assistant "hello" []] =
      [Message.user "hi"] ++ tail) ∧
    ([Message.user "hi"] : List Message).length ≤
      ([Message.user "hi", Message.assistant "hello" []] : List Message).length :=
  engine_append_only (ragNodeFn (fun _ => Message.assistant "hello" []) [])
    ragRoute 3 .llm [Message.user "hi"]
    [Message.user "hi", Message.assistant "hello" []] (by decide)

/-- C2: from the entry node of the RAG graph, if the model's response to the
current state carries no tool-call requests, the routing predicate takes the
False edge to END, so the engine returns after exactly one llm-node
invocation: the final state is the initial one extended by that single
response and nothing else.  If the response does carry tool-call requests,
the routing predicate takes the True edge to the tools node
(retriever_agent). -/
theorem routing_one_shot (model : List Message → Message) (reg : Registry)
    (fuel : Nat) (msgs : List Message) :
    (toolCallsOf (model msgs) = [] →
      runEngine (ragNodeFn model reg) ragRoute (fuel + 1) .llm msgs =
        some (msgs ++ [model msgs])) ∧
    (toolCallsOf (model msgs) ≠ [] →
      ragRoute .llm (msgs ++ [model msgs]) = some .retriever_agent) := by
  constructor
  · intro hno
    rw [runEngine]
    have hroute : ragRoute .llm (msgs ++ ragNodeFn model reg .llm msgs) = none := by
      simp [ragRoute, should_continue, ragNodeFn, List.getLast?_concat, hno]
    rw [hroute]
    simp [ragNodeFn]
  · intro hyes
    simp [ragRoute, should_continue, List.getLast?_concat,
      List.length_pos, hyes]

/-- Witness for C2: a model fixture answering "hello" with no tool calls
terminates in one step from a single user message, and a fixture requesting
one tool call makes the conditional edge select the tools node. -/
theorem routing_one_shot_witness :
    runEngine
      (ragNodeFn (fun _ => Message.assistant "hello" []) []) ragRoute
      1 .llm [Message.user "hi"] =
      some ([Message.user "hi"] ++ [Message.assistant "hello" []]) ∧
    ragRoute .llm ([Message.user "hi"] ++
      [Message.assistant "" [⟨"c1", "retrieve", [("query", "q")]⟩]]) =
      some .retriever_agent :=
  ⟨(routing_one_shot (fun _ => Message.assistant "hello" []) [] 0
      [Message.user "hi"]).1 (by decide),
    (routing_one_shot
      (fun _ => Message.assistant "" [⟨"c1", "retrieve", [("query", "q")]⟩]) []
      0 [Message.user "hi"]).2 (by decide)⟩

/-- C3: the dispatcher is 1:1 and order-preserving: it produces exactly one
tool-result message per request, and the message at every position i is a
ToolResult carrying the name and the correlation id of the request at the
same position i. -/
theorem dispatch_one_to_one (reg : Registry) (tcs : List ToolCallRequest) :
    (take_action_results reg tcs).length = tcs.length ∧
    ∀ i, i < tcs.length →
      ∃ t m, tcs[i]? = some t ∧ (take_action_results reg tcs)[i]? = some m ∧
        msgToolCallId m = some t.id ∧ msgToolName m = some t.name := by
  constructor
  · simp [take_action_results]
  · intro i hi
    refine ⟨tcs[i], dispatchOne reg tcs[i], List.getElem?_eq_getElem hi, ?_, ?_, ?_⟩
    · simp [take_action_results, List.getElem?_map, List.getElem?_eq_getElem hi]
    · simp [dispatchOne, msgToolCallId]
    · simp [dispatchOne, msgToolName]

/-- Witness for C3: a concrete two-request dispatch against the registry of
the RAG script. -/
theorem dispatch_one_to_one_witness :
    (take_action_results [("retrieve", fun _ => "ok")]
      [⟨"a", "retrieve", []⟩, ⟨"b", "bogus", []⟩]).length = 2 ∧
    ∃ t m, ([⟨"a", "retrieve", []⟩, ⟨"b", "bogus", []⟩] :
        List ToolCallRequest)[1]? = some t ∧
      (take_action_results [("retrieve", fun _ => "ok")]
        [⟨"a", "retrieve", []⟩, ⟨"b", "bogus", []⟩])[1]? = some m ∧
      msgToolCallId m = some t.id ∧ msgToolName m = some t.name := by
  obtain ⟨hlen, hidx⟩ := dispatch_one_to_one [("retrieve", fun _ => "ok")]
    [⟨"a", "retrieve", []⟩, ⟨"b", "bogus", []⟩]
  exact ⟨hlen, hidx 1 (by decide)⟩

/-- C4: a request naming an unregistered tool does not fail the dispatcher:
it yields a tool-result message with the request's correlation id and name
whose content is the human-readable invalid-tool notice, and the graph
continues: the unconditional edge out of the tools node returns control to
the llm node rather than aborting. -/
theorem unknown_tool_nonfatal (reg : Registry) (t : ToolCallRequest)
    (h : lookupTool reg t.name = none) :
    dispatchOne reg t = Message.toolResult invalid_tool_msg t.name t.id ∧
    ∀ msgs, ragRoute .retriever_agent msgs = some .llm := by
  constructor
  · simp [dispatchOne, h]
  · intro msgs
    rfl

/-- Witness for C4: the unregistered name "divide_by_zero_tool" against the
RAG registry, whose only tool is "retrieve". -/
theorem unknown_tool_nonfatal_witness :
    dispatchOne [("retrieve", fun _ => "ok")]
      ⟨"c9", "divide_by_zero_tool", []⟩ =
      Message.toolResult invalid_tool_msg "divide_by_zero_tool" "c9" ∧
    ∀ msgs, ragRoute .retriever_agent msgs = some .llm :=
  unknown_tool_nonfatal [("retrieve", fun _ => "ok")]
    ⟨"c9", "divide_by_zero_tool", []⟩ rfl

/-- The result type of the divide tool of 4_ReAct.py: either the sentinel
infinite value (float('inf')) or a finite quotient; Python's true division
of integers is embedded as exact rational division. -/
inductive DivResult where
  | infinite
  | finite (q : ℚ)
deriving DecidableEq

/-- divide of 4_ReAct.py: division by zero is handled by returning the
sentinel infinite value, otherwise the quotient a / b is returned. -/
def divide (a b : ℤ) : DivResult :=
  if b = 0 then .infinite else .finite ((a : ℚ) / (b : ℚ))

/-- C5: the divide tool is total: for every pair of integers it returns a
value and never fails; at b = 0 that value is the sentinel infinite result,
and at b ≠ 0 it is the quotient a / b. -/
theorem divide_total (a b : ℤ) :
    (b = 0 → divide a b = .infinite) ∧
    (b ≠ 0 → divide a b = .finite ((a : ℚ) / (b : ℚ))) := by
  constructor
  · intro h
    simp [divide, h]
  · intro h
    simp [divide, h]

/-- Witness for C5: divide(5, 0) returns the sentinel, and divide(7, 2)
returns 7/2. -/
theorem divide_total_witness :
    divide 5 0 = .infinite ∧ divide 7 2 = .finite ((7 : ℚ) / (2 : ℚ)) :=
  ⟨(divide_total 5 0).1 rfl, (divide_total 7 2).2 (by decide)⟩

/-- Inner-product similarity between two embedding vectors, the similarity
measure of the spec's retrieval index (embedding vectors are fixed-dimension
numeric arrays; we embed them as rational lists). -/
def dot (u v : List ℚ) : ℚ :=
  (List.zipWith (fun a b => a * b) u v).sum

/-- The ranking preorder of the retrieval index on indexed chunks: a comes
no later than b when a's chunk is strictly more similar to the query than
b's, or the similarities tie and a precedes b in original chunk order
(descending similarity, ties broken stably). -/
def rank (embed : String → List ℚ) (q : String) (a b : Nat × String) : Prop :=
  dot (embed q) (embed b.2) < dot (embed q) (embed a.2) ∨
    (dot (embed q) (embed a.2) = dot (embed q) (embed b.2) ∧ a.1 ≤ b.1)

instance (embed : String → List ℚ) (q : String) : DecidableRel (rank embed q) :=
  fun a b => inferInstanceAs (Decidable
    (dot (embed q) (embed b.2) < dot (embed q) (embed a.2) ∨
      (dot (embed q) (embed a.2) = dot (embed q) (embed b.2) ∧ a.1 ≤ b.1)))

instance (embed : String → List ℚ) (q : String) :
    IsTotal (Nat × String) (rank embed q) := by
  constructor
  intro a b
  rcases lt_trichotomy (dot (embed q) (embed a.2)) (dot (embed q) (embed b.2))
    with h | h | h
  · exact Or.inr (Or.inl h)
  · rcases Nat.le_total a.1 b.1 with hn | hn
    · exact Or.inl (Or.inr ⟨h, hn⟩)
    · exact Or.inr (Or.inr ⟨h.symm, hn⟩)
  · exact Or.inl (Or.inl h)

instance (embed : String → List ℚ) (q : String) :
    IsTrans (Nat × String) (rank embed q) := by
  constructor
  intro a b c hab hbc
  rcases hab with hab | ⟨hab, hab2⟩
  · rcases hbc with hbc | ⟨hbc, _⟩
    · exact Or.inl (hbc.trans hab)
    · exact Or.inl (lt_of_eq_of_lt hbc.symm hab)
  · rcases hbc with hbc | ⟨hbc, hbc2⟩
    · exact Or.inl (lt_of_lt_of_eq hbc hab.symm)
    · exact Or.inr ⟨hab.trans hbc, hab2.trans hbc2⟩

/-- Modelled from the spec: the vector store's similarity search (the Chroma
retriever of 6_RAG_Agent.py is an external nearest-neighbor service whose
code is not in the repository).  Chunks are tagged with their original index,
sorted by descending similarity to the query's embedding with ties broken by
original order (insertion sort is stable, and the ranking preorder already
breaks ties by index), and the first k are returned. -/
def searchRanked (embed : String → List ℚ) (index : List String) (q : String)
    (k : Nat) : List (Nat × String) :=
  (List.insertionSort (rank embed q) index.enum).take k

/-- Modelled from the spec: search(query, k) returns the ordered sequence of
up to k chunks ranked by descending similarity. -/
def search (embed : String → List ℚ) (index : List String) (q : String)
    (k : Nat) : List String :=
  (searchRanked embed index q k).map (fun p => p.2)

/-- The retrieve tool of 6_RAG_Agent.py: invoke the retriever on the query;
an empty result becomes the no-information notice, otherwise the numbered
results are joined with blank lines. -/
def retrieve (retrieverFn : String → List String) (query : String) : String :=
  let docs := retrieverFn query
  if docs.isEmpty then "No relevant information found in the document."
  else
    String.intercalate "\n\n"
      (docs.enum.map (fun p => "Result " ++ toString (p.1 + 1) ++ ":\n" ++ p.2 ++ "\n"))

/-- C6: retrieval misses are non-fatal: the search over an empty index (the
zero-match case) returns the empty sequence rather than failing, and when the
retriever hands the tool an empty result the retrieve tool returns the
no-information notice string rather than failing the turn. -/
theorem retrieval_miss_nonfatal (embed : String → List ℚ) (q : String)
    (k : Nat) (retrieverFn : String → List String)
    (hmiss : retrieverFn q = []) :
    search embed [] q k = [] ∧
    retrieve retrieverFn q = "No relevant information found in the document." := by
  constructor
  · simp [search, searchRanked]
  · simp [retrieve, hmiss]

/-- Witness for C6: a retriever that finds nothing and the empty index. -/
theorem retrieval_miss_nonfatal_witness :
    search (fun _ => []) [] "anything" 5 = [] ∧
    retrieve (fun _ => []) "anything" =
      "No relevant information found in the document." :=
  retrieval_miss_nonfatal (fun _ => []) "anything" 5 (fun _ => []) rfl

/-- C7: search over an unchanged index is deterministic (two calls with the
same query and k return identical ordered results), returns at most k chunks,
and the returned indexed sequence is pairwise ordered by the ranking
preorder: descending similarity to the query's embedding, ties broken by
original chunk order. -/
theorem search_deterministic_ranked (embed : String → List ℚ)
    (index : List String) (q : String) (k : Nat) :
    search embed index q k = search embed index q k ∧
    (search embed index q k).length ≤ k ∧
    List.Pairwise (rank embed q) (searchRanked embed index q k) := by
  refine ⟨rfl, ?_, ?_⟩
  · simp [search, searchRanked]
  · exact List.Pairwise.sublist (List.take_sublist k _)
      (List.sorted_insertionSort (rank embed q) index.enum)

/-- Modelled from the spec: the sliding-window chunker (the
RecursiveCharacterTextSplitter used in 6_RAG_Agent.py is external library
code not in the repository).  Chunks of at most size characters are cut at
stride step = size - overlap, so each chunk but the last hands its final
overlap characters to the next chunk.  The fuel argument bounds the
recursion; split_text supplies the text length, which suffices whenever the
stride is positive. -/
def split_text_aux (size step : Nat) : Nat → List Char → List (List Char)
  | 0, s => [s]
  | fuel + 1, s =>
    if s.length ≤ size then [s]
    else s.take size :: split_text_aux size step fuel (s.drop step)

/-- Modelled from the spec: split a document into sliding-window chunks with
a fixed maximum chunk size in characters and a fixed overlap between
consecutive chunks (reference defaults size = 1000, overlap = 100). -/
def split_text (size overlap : Nat) (s : List Char) : List (List Char) :=
  split_text_aux size (size - overlap) s.length s

/-- Concatenate the chunks' non-overlapping text spans: every chunk except
the last contributes its first step characters (its remaining characters are
shared with the next chunk), and the last chunk contributes all of itself. -/
def joinChunks (step : Nat) : List (List Char) → List Char
  | [] => []
  | [c] => c
  | c :: c2 :: rest => c.take step ++ joinChunks step (c2 :: rest)

theorem split_text_aux_ne_nil (size step fuel : Nat) (s : List Char) :
    split_text_aux size step fuel s ≠ [] := by
  cases fuel with
  | zero => simp [split_text_aux]
  | succ fuel =>
    rw [split_text_aux]
    split <;> simp

theorem split_text_aux_head (size step fuel : Nat) (t : List Char) :
    ∃ b r, split_text_aux size step fuel t = b :: r ∧
      b.take (size - step) = t.take (size - step) := by
  cases fuel with
  | zero => exact ⟨t, [], rfl, rfl⟩
  | succ fuel =>
    rw [split_text_aux]
    split
    · exact ⟨t, [], rfl, rfl⟩
    · refine ⟨t.take size, _, rfl, ?_⟩
      rw [List.take_take, Nat.min_eq_left (Nat.sub_le size step)]

theorem joinChunks_cons (step : Nat) (c : List Char) (l : List (List Char))
    (h : l ≠ []) :
    joinChunks step (c :: l) = c.take step ++ joinChunks step l := by
  cases l with
  | nil => exact absurd rfl h
  | cons c2 rest => rfl

theorem split_text_aux_length_le (size step fuel : Nat) (s : List Char)
    (hstep : 0 < step) (hfuel : s.length ≤ fuel) :
    ∀ c ∈ split_text_aux size step fuel s, c.length ≤ size := by
  induction fuel generalizing s with
  | zero =>
    intro c hc
    rw [split_text_aux] at hc
    simp only [List.mem_singleton] at hc
    subst hc
    omega
  | succ fuel ih =>
    intro c hc
    rw [split_text_aux] at hc
    split at hc
    · rename_i h
      simp only [List.mem_singleton] at hc
      subst hc
      exact h
    · rename_i h
      rcases List.mem_cons.mp hc with hc | hc
      · subst hc
        simp [List.length_take]
      · exact ih (s.drop step) (by rw [List.length_drop]; omega) c hc

theorem split_text_aux_chain (size step fuel : Nat) (s : List Char)
    (hstep : 0 < step) (hss : step ≤ size) (hfuel : s.length ≤ fuel) :
    List.Chain'
      (fun a b => a.length = size ∧ a.drop step = b.take (size - step))
      (split_text_aux size step fuel s) := by
  induction fuel generalizing s with
  | zero => simp [split_text_aux]
  | succ fuel ih =>
    rw [split_text_aux]
    split
    · simp
    · rename_i h
      push_neg at h
      obtain ⟨b, r, hbr, hbt⟩ := split_text_aux_head size step fuel (s.drop step)
      rw [hbr, List.chain'_cons']
      constructor
      · intro y hy
        simp only [List.head?_cons, Option.mem_def, Option.some.injEq] at hy
        subst hy
        refine ⟨List.length_take_of_le (le_of_lt h), ?_⟩
        rw [List.drop_take, hbt]
      · rw [← hbr]
        exact ih (s.drop step) (by rw [List.length_drop]; omega)

theorem split_text_aux_join (size step fuel : Nat) (s : List Char)
    (hstep : 0 < step) (hss : step ≤ size) (hfuel : s.length ≤ fuel) :
    joinChunks step (split_text_aux size step fuel s) = s := by
  induction fuel generalizing s with
  | zero =>
    have hs : s = [] := List.eq_nil_of_length_eq_zero (Nat.le_zero.mp hfuel)
    subst hs
    rfl
  | succ fuel ih =>
    rw [split_text_aux]
    split
    · rfl
    · rename_i h
      push_neg at h
      rw [joinChunks_cons step _ _ (split_text_aux_ne_nil size step fuel (s.drop step))]
      rw [ih (s.drop step) (by rw [List.length_drop]; omega)]
      rw [List.take_take, Nat.min_eq_left hss]
      exact List.take_append_drop step s

/-- C8: the sliding-window chunker respects the configured geometry: every
chunk is at most size characters long; every non-final chunk is exactly size
characters and shares its final overlap characters, verbatim, with the
beginning of the next chunk; and concatenating the chunks' non-overlapping
spans reconstructs the original document text exactly. -/
theorem chunking_roundtrip (size overlap : Nat) (s : List Char)
    (hov : overlap < size) :
    (∀ c ∈ split_text size overlap s, c.length ≤ size) ∧
    List.Chain'
      (fun a b => a.length = size ∧ (a.drop (size - overlap)).length = overlap ∧
        a.drop (size - overlap) = b.take overlap)
      (split_text size overlap s) ∧
    joinChunks (size - overlap) (split_text size overlap s) = s := by
  have hstep : 0 < size - overlap := by omega
  have hss : size - overlap ≤ size := Nat.sub_le size overlap
  refine ⟨?_, ?_, ?_⟩
  · exact split_text_aux_length_le size (size - overlap) s.length s hstep le_rfl
  · have h := split_text_aux_chain size (size - overlap) s.length s hstep hss le_rfl
    refine List.Chain'.imp ?_ h
    rintro a b ⟨h1, h2⟩
    have hco : size - (size - overlap) = overlap := by omega
    refine ⟨h1, ?_, ?_⟩
    · rw [List.length_drop, h1]
      omega
    · rw [h2, hco]
  · exact split_text_aux_join size (size - overlap) s.length s hstep hss le_rfl

/-- Witness for C8: chunking the eight-character document "abcdefgh" with
chunk size 5 and overlap 2 yields chunks "abcde" and "defgh" satisfying all
three properties. -/
theorem chunking_roundtrip_witness :
    (∀ c ∈ split_text 5 2 "abcdefgh".toList, c.length ≤ 5) ∧
    List.Chain'
      (fun a b => a.length = 5 ∧ (a.drop (5 - 2)).length = 2 ∧
        a.drop (5 - 2) = b.take 2)
      (split_text 5 2 "abcdefgh".toList) ∧
    joinChunks (5 - 2) (split_text 5 2 "abcdefgh".toList) = "abcdefgh".toList :=
  chunking_roundtrip 5 2 "abcdefgh".toList (by decide)

/-- Python's str.lower(), embedded on the character list of a string. -/
def lower (s : String) : List Char :=
  s.data.map Char.toLower

/-- The exit test of the RAG interactive loop (running_agent in
6_RAG_Agent.py): user_input.lower() in the list of "exit" and "quit". -/
def rag_should_exit (s : String) : Bool :=
  lower s == "exit".data || lower s == "quit".data

/-- The exit test of the 1_Agent_Bot.py loop, the negation of its while
condition user_input.lower() != "exit": only "exit" leaves the loop. -/
def bot_should_exit (s : String) : Bool :=
  lower s == "exit".data

/-- The exit test of the 3_Memory_Agent.py loop, identical to the bot
loop: while user_input.lower() != "exit". -/
def memory_should_exit (s : String) : Bool :=
  lower s == "exit".data

/-- One turn of an interactive loop: either the loop halts, or the engine is
invoked once more on the new user input. -/
inductive LoopAction where
  | halt
  | invokeEngine
deriving DecidableEq, Repr

/-- One iteration of the RAG interactive loop on a user input line. -/
def ragLoopStep (s : String) : LoopAction :=
  if rag_should_exit s then .halt else .invokeEngine

/-- One iteration of the 1_Agent_Bot.py interactive loop. -/
def botLoopStep (s : String) : LoopAction :=
  if bot_should_exit s then .halt else .invokeEngine

/-- One iteration of the 3_Memory_Agent.py interactive loop. -/
def memoryLoopStep (s : String) : LoopAction :=
  if memory_should_exit s then .halt else .invokeEngine

/-- Counterexample to C9 as stated: the claim requires every interactive
loop to terminate on a "quit" input line, but the 1_Agent_Bot.py and
3_Memory_Agent.py loops compare only against "exit", so on input "quit" they
invoke the engine again instead of halting. -/
theorem loop_sentinel_counterexample :
    botLoopStep "quit" = .invokeEngine ∧
    memoryLoopStep "quit" = .invokeEngine := by
  decide

/-- C9 amended: the sentinel handling per loop: the RAG loop halts exactly
on inputs whose lowercase form is "exit" or "quit"; the bot and memory loops
halt exactly on inputs whose lowercase form is "exit"; in every loop, any
other input line leads to one more engine invocation. -/
theorem loop_sentinel_amended (s : String) :
    (ragLoopStep s = .halt ↔ (lower s = "exit".data ∨ lower s = "quit".data)) ∧
    (botLoopStep s = .halt ↔ lower s = "exit".data) ∧
    (memoryLoopStep s = .halt ↔ lower s = "exit".data) ∧
    (ragLoopStep s ≠ .halt → ragLoopStep s = .invokeEngine) ∧
    (botLoopStep s ≠ .halt → botLoopStep s = .invokeEngine) ∧
    (memoryLoopStep s ≠ .halt → memoryLoopStep s = .invokeEngine) := by
  refine ⟨?_, ?_, ?_, ?_, ?_, ?_⟩
  · unfold ragLoopStep
    split <;> rename_i h <;> simp [rag_should_exit] at h <;> simp [h]
  · unfold botLoopStep
    split <;> rename_i h <;> simp [bot_should_exit] at h <;> simp [h]
  · unfold memoryLoopStep
    split <;> rename_i h <;> simp [memory_should_exit] at h <;> simp [h]
  · unfold ragLoopStep
    split <;> simp
  · unfold botLoopStep
    split <;> simp
  · unfold memoryLoopStep
    split <;> simp

/-- Witness for C9 amended: "QUIT" halts the RAG loop (case-insensitively),
"Exit" halts the bot loop, and "quit" makes the bot loop invoke the engine
again. -/
theorem loop_sentinel_amended_witness :
    ragLoopStep "QUIT" = .halt ∧ botLoopStep "Exit" = .halt ∧
    botLoopStep "quit" = .invokeEngine := by
  refine ⟨(loop_sentinel_amended "QUIT").1.mpr (Or.inr (by decide)),
    (loop_sentinel_amended "Exit").2.1.mpr (by decide), ?_⟩
  refine (loop_sentinel_amended "quit").2.2.2.2.1 ?_
  intro hh
  exact absurd ((loop_sentinel_amended "quit").2.1.mp hh) (by decide)

/-- Substring containment over character lists: Python's "needle in hay". -/
def containsSub (needle : List Char) : List Char → Bool
  | [] => needle.isEmpty
  | c :: rest => needle.isPrefixOf (c :: rest) || containsSub needle rest

/-- The body condition of the reversed scan in should_continue of
5_Drafter.py: the scanned message is a ToolMessage whose lowercased content
contains both "saved" and "document". -/
def isSaveConfirm : Message → Bool
  | .toolResult content _ _ =>
      containsSub "saved".data (lower content) &&
      containsSub "document".data (lower content)
  | _ => false

/-- The reversed scan loop of should_continue in 5_Drafter.py.  The loop
body unconditionally returns during its first iteration ("end" on a save
confirmation, "continue" otherwise); if the loop ran off the end of the
sequence the Python function would fall through and return no value, which
the embedding records as none. -/
def drafterScan : List Message → Option String
  | [] => none
  | m :: _ => if isSaveConfirm m then some "end" else some "continue"

/-- should_continue of 5_Drafter.py: an empty message sequence continues,
otherwise the messages are scanned latest-first. -/
def should_continue_drafter (messages : List Message) : Option String :=
  if messages.isEmpty then some "continue"
  else drafterScan messages.reverse

theorem isSaveConfirm_iff (m : Message) :
    isSaveConfirm m = true ↔
      ∃ c n i, m = Message.toolResult c n i ∧
        containsSub "saved".data (lower c) = true ∧
        containsSub "document".data (lower c) = true := by
  cases m <;> simp [isSaveConfirm]

/-- C10: despite the reversed-scan loop, the drafting-variant routing
predicate is total and inspects only the most recent message: it never falls
through without a result; the empty sequence yields "continue"; and for a
non-empty sequence it yields "end" exactly when the last message is a
ToolResult whose content contains both "saved" and "document"
case-insensitively, and "continue" otherwise. -/
theorem drafter_routing_last_only (msgs : List Message) :
    should_continue_drafter msgs ≠ none ∧
    (msgs = [] → should_continue_drafter msgs = some "continue") ∧
    ∀ init m, msgs = init ++ [m] →
      (should_continue_drafter msgs = some "end" ↔
        (∃ c n i, m = Message.toolResult c n i ∧
          containsSub "saved".data (lower c) = true ∧
          containsSub "document".data (lower c) = true)) ∧
      (should_continue_drafter msgs = some "end" ∨
        should_continue_drafter msgs = some "continue") := by
  rcases List.eq_nil_or_concat msgs with h | ⟨init, m, h⟩
  · subst h
    refine ⟨by simp [should_continue_drafter], fun _ => rfl, ?_⟩
    intro init m hm
    exact absurd hm (by simp)
  · rw [List.concat_eq_append] at h
    subst h
    have hne : (init ++ [m]).isEmpty = false := by simp
    have hrev : (init ++ [m]).reverse = m :: init.reverse := by simp
    have hval : should_continue_drafter (init ++ [m]) =
        if isSaveConfirm m then some "end" else some "continue" := by
      rw [should_continue_drafter, hne, hrev]
      rfl
    refine ⟨?_, ?_, ?_⟩
    · rw [hval]
      split <;> simp
    · intro habs
      exact absurd habs (by simp)
    · intro init2 m2 heq
      have hm2 : m2 = m := by
        have hrq := congrArg List.reverse heq
        simp only [List.reverse_append, List.reverse_singleton,
          List.singleton_append, List.cons.injEq] at hrq
        exact hrq.1.symm
      rw [hm2]
      constructor
      · rw [hval]
        by_cases hs : isSaveConfirm m = true
        · simp only [if_pos hs]
          exact ⟨fun _ => (isSaveConfirm_iff m).mp hs, fun _ => trivial⟩
        · simp only [if_neg hs]
          constructor
          · intro hcon
            exact absurd hcon (by decide)
          · intro hex
            exact absurd ((isSaveConfirm_iff m).mpr hex) hs
      · rw [hval]
        split
        · exact Or.inl rfl
        · exact Or.inr rfl

/-- Witness for C10: a history ending in a ToolMessage confirming a save is
routed to "end". -/
theorem drafter_routing_last_only_witness :
    should_continue_drafter
      [Message.user "hi",
        Message.toolResult "Document successfully saved to draft.txt." "save" "t1"] =
      some "end" := by
  have h := (drafter_routing_last_only
    [Message.user "hi",
      Message.toolResult "Document successfully saved to draft.txt." "save" "t1"]).2.2
    [Message.user "hi"]
    (Message.toolResult "Document successfully saved to draft.txt." "save" "t1") rfl
  exact h.1.mpr ⟨"Document successfully saved to draft.txt.", "save", "t1", rfl,
    by decide, by decide⟩
